import Mathlib

/-!
Shallow embedding of the context-resolution subsystem of the Nexus voice
assistant backend:

* `app/models.py`            — the `ContextReferences` table row
* `app/memory/manager.py`    — `MemoryManager`: `store_context_reference`,
  `get_last_reference`, `resolve_entity_reference`, `clear_old_references`
* `app/memory/context.py`    — `ContextResolver`: `resolve_ordinal_reference`,
  `extract_context_from_input`, `build_clarification_question`,
  `get_recent_items_summary`
* `app/intent/entity_resolver.py` — `EntityResolver.resolve_entities`,
  `generate_clarification_options`

The database session is modelled as an explicit `Store` value threaded through
the operations; wall-clock timestamps (`datetime.utcnow`, `func.now`) are
explicit `Nat` parameters.  The SQLAlchemy `ORDER BY last_accessed DESC` is
modelled by a stable insertion sort; `LIMIT n` by `List.take`.  Python `dict`s
are association lists with insert-or-replace update, and Python's
`try/except IndexError` around list indexing is modelled by a total indexing
function returning `Option` (Python negative indexing included).
-/

namespace Nexus

/-- JSON metadata mappings (the `metadata` dictionaries handled by
`MemoryManager`), modelled as association lists of string pairs. -/
abbrev MetaMap := List (String × String)

/-- One row of the `context_references` table (`models.py`,
`ContextReferences`): integer primary key, reference type, external id,
display name, last-accessed timestamp, access count, metadata payload. -/
structure ContextReference where
  id : Nat
  ref_type : String
  ref_id : String
  ref_name : String
  last_accessed : Nat
  access_count : Nat
  metadata : MetaMap
deriving DecidableEq

/-- The database state seen by `MemoryManager`: the rows of
`context_references` plus the next free primary key. -/
structure Store where
  refs : List ContextReference
  nextId : Nat
deriving DecidableEq

/-- Does the pattern `p` occur at the head of `l`?  (Character-list prefix
test, written out so the embedding is self-contained.) -/
def matchAt : List Char → List Char → Bool
  | [], _ => true
  | _ :: _, [] => false
  | c :: p, d :: l => c == d && matchAt p l

/-- Python substring containment `p in s` over character lists. -/
def subIn (p l : List Char) : Bool :=
  (List.range (l.length + 1)).any (fun i => matchAt p (l.drop i))

/-- Python's `pat in s` on strings. -/
def containsSub (s pat : String) : Bool := subIn pat.data s.data

/-- Python's `str.lower()`. -/
def strLower (s : String) : String := ⟨s.data.map Char.toLower⟩

/-- Stable descending insertion by `last_accessed` (helper for the model of
`ORDER BY last_accessed DESC`). -/
def insertDesc (r : ContextReference) : List ContextReference → List ContextReference
  | [] => [r]
  | x :: xs => if x.last_accessed < r.last_accessed then r :: x :: xs else x :: insertDesc r xs

/-- Stable sort by `last_accessed` descending; models the SQL
`ORDER BY ContextReferences.last_accessed DESC`. -/
def sortDesc : List ContextReference → List ContextReference
  | [] => []
  | x :: xs => insertDesc x (sortDesc xs)

/-- The filter used by `store_context_reference` to look up an existing row:
`ref_type == ref_type AND ref_id == ref_id`. -/
def pairMatch (ty idv : String) (r : ContextReference) : Bool :=
  r.ref_type == ty && r.ref_id == idv

/-- `MemoryManager.get_last_reference(ref_type, limit)` (`manager.py`):
filter rows by type, order by `last_accessed` descending, take `limit`,
and return `None` (here `none`) when the resulting list is empty —
`return references if references else None`. -/
def get_last_reference (s : Store) (ref_type : String) (limit : Nat) :
    Option (List ContextReference) :=
  let references := (sortDesc (s.refs.filter (fun r => r.ref_type == ref_type))).take limit
  if references.isEmpty then none else some references

/-- `MemoryManager.store_context_reference(ref_type, ref_id, ref_name, metadata)`
(`manager.py`): if a row with the same `(ref_type, ref_id)` exists, refresh its
`last_accessed`, increment `access_count`, overwrite `ref_name`, and overwrite
`metadata` only when the supplied mapping is truthy (`if metadata:` — so
`None` and the empty dict leave the old metadata in place); otherwise insert a
fresh row with `access_count = 1` (column default) and `metadata or {}`.
`now` models `datetime.utcnow()` / the column's `func.now()` default. -/
def store_context_reference (s : Store) (ref_type ref_id ref_name : String)
    (metadata : Option MetaMap) (now : Nat) : Store × ContextReference :=
  match s.refs.find? (pairMatch ref_type ref_id) with
  | some existing =>
      let updated : ContextReference :=
        { existing with
          last_accessed := now
          access_count := existing.access_count + 1
          ref_name := ref_name
          metadata :=
            match metadata with
            | some m => if m = [] then existing.metadata else m
            | none => existing.metadata }
      ({ s with refs := s.refs.map (fun r => if r.id == existing.id then updated else r) },
       updated)
  | none =>
      let r : ContextReference :=
        { id := s.nextId
          ref_type := ref_type
          ref_id := ref_id
          ref_name := ref_name
          last_accessed := now
          access_count := 1
          metadata := metadata.getD [] }
      ({ refs := s.refs ++ [r], nextId := s.nextId + 1 }, r)

/-- The dictionary built from a resolved reference
(`{"type": ..., "id": ..., "name": ..., "metadata": ...}`). -/
structure ResolvedRef where
  type : String
  id : String
  name : String
  metadata : MetaMap
deriving DecidableEq

/-- The `ref = get_last_reference(ty); if ref: {..ref[0]..}` pattern shared by
the three branches of `resolve_entity_reference`. -/
def lastRefResolved (s : Store) (ty : String) : Option ResolvedRef :=
  match get_last_reference s ty 1 with
  | some (r :: _) => some ⟨ty, r.ref_id, r.ref_name, r.metadata⟩
  | _ => none

/-- Email-keyword test of `resolve_entity_reference`:
`"email" in text_lower or "message" in text_lower`. -/
def emailCue (text : String) : Bool :=
  containsSub (strLower text) "email" || containsSub (strLower text) "message"

/-- Location-keyword test of `resolve_entity_reference`:
`any(word in text_lower for word in ["there", "that place", "location"])`. -/
def locationCue (text : String) : Bool :=
  ["there", "that place", "location"].any (fun w => containsSub (strLower text) w)

/-- Track-keyword test of `resolve_entity_reference`:
`any(word in text_lower for word in ["song", "track", "music", "it"])`. -/
def trackCue (text : String) : Bool :=
  ["song", "track", "music", "it"].any (fun w => containsSub (strLower text) w)

/-- `MemoryManager.resolve_entity_reference(reference_text)` (`manager.py`):
try email keywords first, then location keywords, then track keywords; each
branch returns only when a stored reference of that type exists, otherwise
control falls through to the next branch; `None` when nothing produced. -/
def resolve_entity_reference (s : Store) (reference_text : String) : Option ResolvedRef :=
  let r1 := if emailCue reference_text then lastRefResolved s "email" else none
  let r2 := if locationCue reference_text then lastRefResolved s "location" else none
  let r3 := if trackCue reference_text then lastRefResolved s "track" else none
  r1.orElse (fun _ => r2.orElse (fun _ => r3))

/-- `MemoryManager.clear_old_references(days)` (`manager.py`): delete the rows
with `last_accessed < utcnow() - timedelta(days)` and commit.  The Python
function body has no `return` statement, so its value is `None`; the second
component records that returned value (`Option Nat` because the spec expects a
deleted-row count there). -/
def clear_old_references (s : Store) (now days : Nat) : Store × Option Nat :=
  let cutoff := now - days
  ({ s with refs := s.refs.filter (fun r => !(r.last_accessed < cutoff)) }, none)

/-- `ordinal_map` of `ContextResolver.resolve_ordinal_reference`
(`context.py`). -/
def ordinal_map : List (String × Int) :=
  [("first", 0), ("second", 1), ("third", 2), ("fourth", 3), ("fifth", 4), ("last", -1)]

/-- Python list indexing `l[i]` wrapped in `try/except IndexError`: negative
indices count from the end; out-of-range yields `none`. -/
def pyGet {α : Type} (l : List α) (i : Int) : Option α :=
  if 0 ≤ i then l.get? i.toNat
  else if (-i).toNat ≤ l.length then l.get? (l.length - (-i).toNat) else none

/-- `ContextResolver.resolve_ordinal_reference(ordinal, ref_type)`
(`context.py`): map the ordinal word to an index, fetch up to 5 most recent
references of the type, index into them Python-style, `None` on unknown word,
empty fetch, or `IndexError`. -/
def resolve_ordinal_reference (s : Store) (ordinal ref_type : String) : Option ResolvedRef :=
  match ordinal_map.lookup (strLower ordinal) with
  | none => none
  | some index =>
      match get_last_reference s ref_type 5 with
      | none => none
      | some refs =>
          match pyGet refs index with
          | some r => some ⟨ref_type, r.ref_id, r.ref_name, r.metadata⟩
          | none => none

/-- The context dictionary produced by
`ContextResolver.extract_context_from_input`. -/
structure Context where
  has_reference : Bool
  reference_type : Option String
  ordinal : Option String
  needs_clarification : Bool
deriving DecidableEq

/-- The ordinal keyword list of `extract_context_from_input`. -/
def ordinals : List String := ["first", "second", "third", "fourth", "fifth", "last"]

/-- The demonstrative keyword list of `extract_context_from_input`. -/
def demonstratives : List String := ["that", "this", "it", "there"]

/-- `ContextResolver.extract_context_from_input(user_input)` (`context.py`):
substring-scan the lower-cased input for ordinal words (first hit recorded,
sets `has_reference`), demonstrative words (sets `has_reference`), and type
keywords (email before location before track); `needs_clarification` is
initialised `False` and never changed here. -/
def extract_context_from_input (user_input : String) : Context :=
  let t := strLower user_input
  let ord := ordinals.find? (fun o => containsSub t o)
  let hasDemo := demonstratives.any (fun d => containsSub t d)
  let refType : Option String :=
    if containsSub t "email" || containsSub t "message" then some "email"
    else if ["place", "location", "there"].any (fun w => containsSub t w) then some "location"
    else if ["song", "track", "music"].any (fun w => containsSub t w) then some "track"
    else none
  { has_reference := ord.isSome || hasDemo
    reference_type := refType
    ordinal := ord
    needs_clarification := false }

/-- `ContextResolver.build_clarification_question(missing_context)`
(`context.py`): fixed per-type template with `questions["general"]` as the
`dict.get` fallback. -/
def build_clarification_question (missing_context : String) : String :=
  let questions : List (String × String) :=
    [("email", "Which email? Could you be more specific?"),
     ("location", "Which location do you mean?"),
     ("track", "Which song are you referring to?"),
     ("general", "Could you please clarify what you mean?")]
  (questions.lookup missing_context).getD "Could you please clarify what you mean?"

/-- `ContextResolver.get_recent_items_summary(ref_type, limit)` (`context.py`):
display names of the most recent references of the type, `[]` when
`get_last_reference` returned `None`. -/
def get_recent_items_summary (s : Store) (ref_type : String) (limit : Nat) : List String :=
  match get_last_reference s ref_type limit with
  | none => []
  | some refs => refs.map (fun r => r.ref_name)

/-- The dictionary returned by `EntityResolver.generate_clarification_options`. -/
structure Clarification where
  question : String
  options : List String
  type : String
deriving DecidableEq

/-- `EntityResolver.generate_clarification_options(ref_type)`
(`entity_resolver.py`): up to 3 recent display names plus the per-type
template question. -/
def generate_clarification_options (s : Store) (ref_type : String) : Clarification :=
  { question := build_clarification_question ref_type
    options := get_recent_items_summary s ref_type 3
    type := ref_type }

/-- Values stored in the entity dictionaries handled by
`EntityResolver.resolve_entities`. -/
inductive Val where
  | str : String → Val
  | bool : Bool → Val
  | int : Int → Val
  | ref : ResolvedRef → Val
deriving DecidableEq

/-- A Python `dict` with string keys, modelled as an association list in
insertion order. -/
abbrev PDict := List (String × Val)

/-- Python `k in d` on dictionaries. -/
def hasKey (d : PDict) (k : String) : Bool := d.any (fun p => p.1 == k)

/-- Python `d[k] = v`: replace in place when the key exists, append
otherwise. -/
def pySet (d : PDict) (k : String) (v : Val) : PDict :=
  if hasKey d k then d.map (fun p => if p.1 == k then (k, v) else p) else d ++ [(k, v)]

/-- `EntityResolver.resolve_entities(user_input, intent, extracted_params)`
(`entity_resolver.py`): copy `extracted_params`, extract context clues, on a
reference resolve via the ordinal path (type defaulting to `"email"`) or the
demonstrative path, attach a successful resolution under
`"resolved_reference"`, then set `"needs_clarification"` to
`has_reference and "resolved_reference" not in entities`.  The `intent`
argument is carried but unused, as in the source. -/
def resolve_entities (s : Store) (user_input intent : String) (extracted_params : PDict) :
    PDict :=
  let entities := extracted_params
  let ci := extract_context_from_input user_input
  let entities :=
    if ci.has_reference then
      match ci.ordinal with
      | some o =>
          match resolve_ordinal_reference s o (ci.reference_type.getD "email") with
          | some r => pySet entities "resolved_reference" (Val.ref r)
          | none => entities
      | none =>
          match resolve_entity_reference s user_input with
          | some r => pySet entities "resolved_reference" (Val.ref r)
          | none => entities
    else entities
  let needs := ci.has_reference && !(hasKey entities "resolved_reference")
  pySet entities "needs_clarification" (Val.bool needs)

/-- The rows matching a `(ref_type, ref_id)` pair: the uniqueness invariant
says this list has at most one element. -/
def matching (s : Store) (ty idv : String) : List ContextReference :=
  s.refs.filter (pairMatch ty idv)

/-- Well-formedness of the store: primary keys are below the id counter and
pairwise distinct (what the database's primary-key column guarantees). -/
def StoreWF (s : Store) : Prop :=
  (∀ r ∈ s.refs, r.id < s.nextId) ∧ s.refs.Pairwise (fun a b => a.id ≠ b.id)

/-- Arguments of one `store_context_reference` call apart from the key:
display name, metadata, call timestamp. -/
structure UpsertArgs where
  name : String
  meta : Option MetaMap
  time : Nat
deriving DecidableEq

/-- A sequence of `store_context_reference` calls with one fixed
`(ref_type, ref_id)` pair. -/
def upsertSeq (s : Store) (ty idv : String) : List UpsertArgs → Store
  | [] => s
  | a :: rest => upsertSeq (store_context_reference s ty idv a.name a.meta a.time).1 ty idv rest

/-- The empty database. -/
def emptyStore : Store := ⟨[], 0⟩

/-- Three references of one type upserted in order A, B, C at successive
times, starting from the empty store (the scenario of spec property 3). -/
def upsert3 (ty idA idB idC nA nB nC : String) (mA mB mC : Option MetaMap)
    (tA tB tC : Nat) : Store :=
  (store_context_reference
    ((store_context_reference
      ((store_context_reference emptyStore ty idA nA mA tA).1)
      ty idB nB mB tB).1)
    ty idC nC mC tC).1

/-- Fixture: a store holding one location reference "Central Park". -/
def parkStore : Store := ⟨[⟨0, "location", "cp1", "Central Park", 1, 1, []⟩], 1⟩

/-- Fixture: a store holding one track reference. -/
def trackStore : Store := ⟨[⟨0, "track", "t1", "Song X", 1, 1, []⟩], 1⟩

/-- Fixture: a store holding exactly two email references. -/
def twoEmailStore : Store :=
  ⟨[⟨0, "email", "a", "A", 1, 1, []⟩, ⟨1, "email", "b", "B", 2, 1, []⟩], 2⟩

/-- Fixture: one stale (time 1) and one fresh (time 9) email reference. -/
def staleStore : Store :=
  ⟨[⟨0, "email", "m1", "Old", 1, 1, []⟩, ⟨1, "email", "m2", "New", 9, 1, []⟩], 2⟩

/-- Fixture: one email reference carrying nonempty metadata. -/
def metaStore : Store := ⟨[⟨0, "email", "m1", "old", 1, 1, [("a", "1")]⟩], 1⟩

/-! ## List-level helper lemmas -/

theorem find?_of_filter_eq_singleton {α : Type} {p : α → Bool} :
    ∀ {l : List α} {e : α}, l.filter p = [e] → l.find? p = some e := by
  intro l
  induction l with
  | nil => intro e h; simp at h
  | cons x xs ih =>
      intro e h
      by_cases hx : p x
      · rw [List.filter_cons_of_pos hx] at h
        obtain ⟨he, -⟩ := List.cons_eq_cons.mp h
        rw [List.find?_cons_of_pos _ hx, he]
      · rw [List.filter_cons_of_neg hx] at h
        rw [List.find?_cons_of_neg _ hx]
        exact ih h

theorem mem_insertDesc {a r : ContextReference} :
    ∀ {l : List ContextReference}, a ∈ insertDesc r l ↔ a = r ∨ a ∈ l := by
  intro l
  induction l with
  | nil => simp [insertDesc]
  | cons x xs ih =>
      by_cases h : x.last_accessed < r.last_accessed
      · simp [insertDesc, h]
      · simp only [insertDesc, if_neg h, List.mem_cons, ih]
        tauto

theorem length_insertDesc (r : ContextReference) :
    ∀ (l : List ContextReference), (insertDesc r l).length = l.length + 1 := by
  intro l
  induction l with
  | nil => rfl
  | cons x xs ih =>
      by_cases h : x.last_accessed < r.last_accessed
      · simp [insertDesc, h]
      · simp [insertDesc, if_neg h, ih]

theorem length_sortDesc : ∀ (l : List ContextReference), (sortDesc l).length = l.length := by
  intro l
  induction l with
  | nil => rfl
  | cons x xs ih => simp [sortDesc, length_insertDesc, ih]

theorem mem_sortDesc {a : ContextReference} :
    ∀ {l : List ContextReference}, a ∈ sortDesc l ↔ a ∈ l := by
  intro l
  induction l with
  | nil => simp [sortDesc]
  | cons x xs ih => simp [sortDesc, mem_insertDesc, ih]

theorem pairwise_insertDesc {r : ContextReference} :
    ∀ {l : List ContextReference},
      l.Pairwise (fun a b => b.last_accessed ≤ a.last_accessed) →
      (insertDesc r l).Pairwise (fun a b => b.last_accessed ≤ a.last_accessed) := by
  intro l
  induction l with
  | nil => intro h; simp [insertDesc]
  | cons x xs ih =>
      intro h
      rw [List.pairwise_cons] at h
      obtain ⟨hx, hxs⟩ := h
      by_cases hlt : x.last_accessed < r.last_accessed
      · rw [insertDesc, if_pos hlt, List.pairwise_cons]
        refine ⟨?_, List.pairwise_cons.mpr ⟨hx, hxs⟩⟩
        intro b hb
        rcases List.mem_cons.mp hb with hb | hb
        · subst hb; omega
        · have := hx b hb; omega
      · rw [insertDesc, if_neg hlt, List.pairwise_cons]
        refine ⟨?_, ih hxs⟩
        intro b hb
        rcases mem_insertDesc.mp hb with hb | hb
        · subst hb; omega
        · exact hx b hb

theorem pairwise_sortDesc :
    ∀ (l : List ContextReference),
      (sortDesc l).Pairwise (fun a b => b.last_accessed ≤ a.last_accessed) := by
  intro l
  induction l with
  | nil => simp [sortDesc]
  | cons x xs ih => exact pairwise_insertDesc ih

theorem filter_map_update {p : ContextReference → Bool} {u : ContextReference} :
    ∀ {l : List ContextReference} {e : ContextReference},
      l.Pairwise (fun a b => a.id ≠ b.id) → l.filter p = [e] → p u = true → u.id = e.id →
      (l.map (fun r => if r.id == e.id then u else r)).filter p = [u] := by
  intro l
  induction l with
  | nil => intro e _ h; simp at h
  | cons x xs ih =>
      intro e hpw hf hpu hid
      rw [List.pairwise_cons] at hpw
      obtain ⟨hxne, hpw2⟩ := hpw
      by_cases hx : p x
      · rw [List.filter_cons_of_pos hx] at hf
        obtain ⟨hxe, hrest⟩ := List.cons_eq_cons.mp hf
        subst hxe
        have hmap : xs.map (fun r => if r.id == x.id then u else r) = xs := by
          calc xs.map (fun r => if r.id == x.id then u else r) = xs.map id := by
                apply List.map_congr_left
                intro a ha
                have hne : a.id ≠ x.id := fun hcontra => (hxne a ha) hcontra.symm
                simp [hne]
            _ = xs := List.map_id xs
        rw [List.map_cons, hmap, beq_self_eq_true, if_pos rfl,
          List.filter_cons_of_pos hpu, hrest]
      · rw [List.filter_cons_of_neg hx] at hf
        have hex : e ∈ xs := List.mem_filter.mp (hf ▸ List.mem_singleton_self e) |>.1
        have hxid : x.id ≠ e.id := hxne e hex
        have hxif : (if x.id == e.id then u else x) = x := by simp [hxid]
        rw [List.map_cons, hxif, List.filter_cons_of_neg hx]
        exact ih hpw2 hf hpu hid

/-! ## Behaviour of one `store_context_reference` call -/

theorem store_insert_of_absent (s : Store) (ty idv nm : String) (m : Option MetaMap) (t : Nat)
    (habs : matching s ty idv = []) :
    store_context_reference s ty idv nm m t =
      ({ refs := s.refs ++ [⟨s.nextId, ty, idv, nm, t, 1, m.getD []⟩],
         nextId := s.nextId + 1 },
       ⟨s.nextId, ty, idv, nm, t, 1, m.getD []⟩) := by
  have hfind : s.refs.find? (pairMatch ty idv) = none := by
    rw [List.find?_eq_none]
    intro x hx hpx
    have hmem : x ∈ s.refs.filter (pairMatch ty idv) := List.mem_filter.mpr ⟨hx, hpx⟩
    rw [show s.refs.filter (pairMatch ty idv) = matching s ty idv from rfl, habs] at hmem
    exact absurd hmem (List.not_mem_nil x)
  simp [store_context_reference, hfind]

theorem store_step_absent (s : Store) (ty idv nm : String) (m : Option MetaMap) (t : Nat)
    (hwf : StoreWF s) (habs : matching s ty idv = []) :
    StoreWF (store_context_reference s ty idv nm m t).1 ∧
    matching (store_context_reference s ty idv nm m t).1 ty idv
      = [(store_context_reference s ty idv nm m t).2] ∧
    (store_context_reference s ty idv nm m t).2.access_count = 1 := by
  rw [store_insert_of_absent s ty idv nm m t habs]
  obtain ⟨hbound, hpw⟩ := hwf
  refine ⟨⟨?_, ?_⟩, ?_, rfl⟩
  · intro r hr
    rcases List.mem_append.mp hr with hr | hr
    · exact Nat.lt_succ_of_lt (hbound r hr)
    · rw [List.mem_singleton.mp hr]; exact Nat.lt_succ_self _
  · rw [List.pairwise_append]
    refine ⟨hpw, List.pairwise_singleton _ _, ?_⟩
    intro a ha b hb
    rw [List.mem_singleton.mp hb]
    exact Nat.ne_of_lt (hbound a ha)
  · show (s.refs ++ [_]).filter (pairMatch ty idv) = _
    rw [List.filter_append, show List.filter (pairMatch ty idv) s.refs = [] from habs]
    simp [pairMatch]

theorem store_step_present (s : Store) (ty idv nm : String) (m : Option MetaMap) (t : Nat)
    (e : ContextReference) (hwf : StoreWF s) (hm : matching s ty idv = [e]) :
    StoreWF (store_context_reference s ty idv nm m t).1 ∧
    matching (store_context_reference s ty idv nm m t).1 ty idv
      = [(store_context_reference s ty idv nm m t).2] ∧
    (store_context_reference s ty idv nm m t).2.access_count = e.access_count + 1 ∧
    (store_context_reference s ty idv nm m t).2.ref_name = nm ∧
    (store_context_reference s ty idv nm m t).2.last_accessed = t ∧
    (∀ mm, m = some mm → mm ≠ [] →
      (store_context_reference s ty idv nm m t).2.metadata = mm) ∧
    (store_context_reference s ty idv nm m t).1.refs.length = s.refs.length := by
  have hfind : s.refs.find? (pairMatch ty idv) = some e :=
    find?_of_filter_eq_singleton hm
  have hpe : pairMatch ty idv e = true :=
    (List.mem_filter.mp (hm ▸ List.mem_singleton_self e)).2
  obtain ⟨hbound, hpw⟩ := hwf
  have hemem : e ∈ s.refs := (List.mem_filter.mp (hm ▸ List.mem_singleton_self e)).1
  rw [store_context_reference, hfind]
  simp only
  set u : ContextReference :=
    { e with
      last_accessed := t
      access_count := e.access_count + 1
      ref_name := nm
      metadata :=
        match m with
        | some mm => if mm = [] then e.metadata else mm
        | none => e.metadata } with hu
  have hpu : pairMatch ty idv u = true := by
    rw [pairMatch] at hpe ⊢
    exact hpe
  have hid : u.id = e.id := rfl
  have hidmap : ∀ r : ContextReference, (if r.id == e.id then u else r).id = r.id := by
    intro r
    by_cases h : r.id = e.id
    · simp [h]
    · simp [h]
  refine ⟨⟨?_, ?_⟩, ?_, by trivial, by trivial, by trivial, ?_, by simp⟩
  · intro r hr
    obtain ⟨a, ha, rfl⟩ := List.mem_map.mp hr
    rw [hidmap a]
    exact hbound a ha
  · rw [List.pairwise_map]
    refine hpw.imp_of_mem ?_
    intro a b _ _ hab
    rw [hidmap a, hidmap b]
    exact hab
  · exact filter_map_update hpw hm hpu hid
  · intro mm hmm hne
    subst hmm
    simp [hu, hne]

/-! ## C1: uniqueness and access count under repeated upserts -/

theorem upsertSeq_invariant (ty idv : String) :
    ∀ (calls : List UpsertArgs) (s : Store) (e : ContextReference),
      StoreWF s → matching s ty idv = [e] →
      ∃ u, StoreWF (upsertSeq s ty idv calls) ∧
        matching (upsertSeq s ty idv calls) ty idv = [u] ∧
        u.access_count = e.access_count + calls.length := by
  intro calls
  induction calls with
  | nil => intro s e hwf hm; exact ⟨e, hwf, hm, by simp [upsertSeq]⟩
  | cons a rest ih =>
      intro s e hwf hm
      obtain ⟨hwf1, hm1, hc1, -⟩ :=
        store_step_present s ty idv a.name a.meta a.time e hwf hm
      obtain ⟨u, hwfu, hmu, hcu⟩ :=
        ih (store_context_reference s ty idv a.name a.meta a.time).1
          (store_context_reference s ty idv a.name a.meta a.time).2 hwf1 hm1
      refine ⟨u, ?_, ?_, ?_⟩
      · exact hwfu
      · exact hmu
      · rw [hcu, hc1, List.length_cons]
        omega

/-- C1: for every sequence of `store_context_reference` calls with one fixed
`(ref_type, ref_id)` pair, starting from a well-formed store holding no
record for that pair, exactly one `ContextReferences` record for the pair
exists afterwards, and its `access_count` equals the number of upsert calls
in the sequence. -/
theorem upsert_uniqueness_access_count (s : Store) (ty idv : String)
    (calls : List UpsertArgs) (hwf : StoreWF s)
    (habs : matching s ty idv = []) (hne : calls ≠ []) :
    ∃ u, matching (upsertSeq s ty idv calls) ty idv = [u] ∧
      u.access_count = calls.length := by
  match calls, hne with
  | a :: rest, _ =>
      obtain ⟨hwf1, hm1, hc1⟩ := store_step_absent s ty idv a.name a.meta a.time hwf habs
      obtain ⟨u, -, hmu, hcu⟩ :=
        upsertSeq_invariant ty idv rest
          (store_context_reference s ty idv a.name a.meta a.time).1
          (store_context_reference s ty idv a.name a.meta a.time).2 hwf1 hm1
      refine ⟨u, ?_, ?_⟩
      · exact hmu
      · rw [hcu, hc1, List.length_cons]
        omega

/-- Witness for C1: two upserts of the same email id into the empty store
leave exactly one record, with access count 2. -/
theorem upsert_uniqueness_access_count_witness :
    ∃ u, matching
        (upsertSeq emptyStore "email" "m1" [⟨"A", none, 1⟩, ⟨"B", none, 2⟩])
        "email" "m1" = [u] ∧
      u.access_count = 2 := by
  have h := upsert_uniqueness_access_count emptyStore "email" "m1"
    [⟨"A", none, 1⟩, ⟨"B", none, 2⟩]
    (by constructor <;> simp [emptyStore]) (by rfl) (by simp)
  simpa using h

/-! ## C8: in-place update on re-store -/

/-- C8 counterexample: re-storing `metaStore`'s record with a new display
name and the new metadata mapping `{}` does NOT make the stored metadata
equal the newly supplied mapping — `if metadata:` treats the empty dict as
falsy and keeps the old metadata, so the claim fails at this input. -/
theorem upsert_metadata_counterexample :
    (store_context_reference metaStore "email" "m1" "new" (some []) 5).2.metadata
        = [("a", "1")] ∧
    ([("a", "1")] : MetaMap) ≠ [] := by
  exact ⟨by decide, by decide⟩

/-- C8 (amended): upserting an already-existing `(ref_type, ref_id)` pair
with a new display name and a NONEMPTY new metadata mapping updates the
existing record in place: afterwards its display name equals the supplied
name, its metadata equals the supplied mapping, its last-accessed timestamp
is refreshed to the call time, and no duplicate record is created (the pair
still has exactly one record and the table's row count is unchanged).  When
the supplied metadata is empty or absent, the old metadata is kept. -/
theorem upsert_update_in_place_amended (s : Store) (ty idv nm : String)
    (mm : MetaMap) (t : Nat) (e : ContextReference)
    (hwf : StoreWF s) (hm : matching s ty idv = [e]) (hne : mm ≠ []) :
    matching (store_context_reference s ty idv nm (some mm) t).1 ty idv
      = [(store_context_reference s ty idv nm (some mm) t).2] ∧
    (store_context_reference s ty idv nm (some mm) t).2.ref_name = nm ∧
    (store_context_reference s ty idv nm (some mm) t).2.metadata = mm ∧
    (store_context_reference s ty idv nm (some mm) t).2.last_accessed = t ∧
    (store_context_reference s ty idv nm (some mm) t).1.refs.length
      = s.refs.length := by
  obtain ⟨-, h2, -, h4, h5, h6, h7⟩ := store_step_present s ty idv nm (some mm) t e hwf hm
  exact ⟨h2, h4, h6 mm rfl hne, h5, h7⟩

/-- Witness for C8: re-storing `metaStore`'s record with name "new" and
nonempty metadata replaces name, metadata and timestamp in place. -/
theorem upsert_update_in_place_amended_witness :
    matching (store_context_reference metaStore "email" "m1" "new"
        (some [("b", "2")]) 5).1 "email" "m1"
      = [(store_context_reference metaStore "email" "m1" "new"
          (some [("b", "2")]) 5).2] ∧
    (store_context_reference metaStore "email" "m1" "new"
        (some [("b", "2")]) 5).2.ref_name = "new" ∧
    (store_context_reference metaStore "email" "m1" "new"
        (some [("b", "2")]) 5).2.metadata = [("b", "2")] ∧
    (store_context_reference metaStore "email" "m1" "new"
        (some [("b", "2")]) 5).2.last_accessed = 5 ∧
    (store_context_reference metaStore "email" "m1" "new"
        (some [("b", "2")]) 5).1.refs.length = metaStore.refs.length := by
  exact upsert_update_in_place_amended metaStore "email" "m1" "new" [("b", "2")] 5
    ⟨0, "email", "m1", "old", 1, 1, [("a", "1")]⟩
    (by constructor <;> simp [metaStore]) (by decide) (by decide)

/-! ## C2: ordinal resolution over the recency window -/

/-- C2: `resolve_ordinal_reference` maps the ordinal word to a zero-based
index (first=0, second=1, third=2, fourth=3, fifth=4, last=-1) and indexes
into the up-to-5 most recently accessed references of the given type ordered
by last-accessed descending; with exactly three references of a type
upserted in order A, B, C at increasing times (C most recent), "first"
resolves to C, "second" to B, and "last" (Python index -1) to A, the oldest
within the 5-element fetch window. -/
theorem ordinal_resolution_correct (ty idA idB idC nA nB nC : String)
    (mA mB mC : Option MetaMap) (tA tB tC : Nat)
    (hAB : idA ≠ idB) (hAC : idA ≠ idC) (hBC : idB ≠ idC)
    (hT1 : tA < tB) (hT2 : tB < tC) :
    ordinal_map.lookup "first" = some 0 ∧
    ordinal_map.lookup "second" = some 1 ∧
    ordinal_map.lookup "third" = some 2 ∧
    ordinal_map.lookup "fourth" = some 3 ∧
    ordinal_map.lookup "fifth" = some 4 ∧
    ordinal_map.lookup "last" = some (-1) ∧
    resolve_ordinal_reference (upsert3 ty idA idB idC nA nB nC mA mB mC tA tB tC)
        "first" ty = some ⟨ty, idC, nC, mC.getD []⟩ ∧
    resolve_ordinal_reference (upsert3 ty idA idB idC nA nB nC mA mB mC tA tB tC)
        "second" ty = some ⟨ty, idB, nB, mB.getD []⟩ ∧
    resolve_ordinal_reference (upsert3 ty idA idB idC nA nB nC mA mB mC tA tB tC)
        "last" ty = some ⟨ty, idA, nA, mA.getD []⟩ := by
  have hbAB : (idA == idB) = false := by
    simp [hAB]
  have hbAC : (idA == idC) = false := by
    simp [hAC]
  have hbBC : (idB == idC) = false := by
    simp [hBC]
  set rA : ContextReference := ⟨0, ty, idA, nA, tA, 1, mA.getD []⟩ with hrA
  set rB : ContextReference := ⟨1, ty, idB, nB, tB, 1, mB.getD []⟩ with hrB
  set rC : ContextReference := ⟨2, ty, idC, nC, tC, 1, mC.getD []⟩ with hrC
  have e1 : store_context_reference emptyStore ty idA nA mA tA = (⟨[rA], 1⟩, rA) := by
    rw [store_insert_of_absent emptyStore ty idA nA mA tA rfl]
    rfl
  have habs2 : matching ⟨[rA], 1⟩ ty idB = [] := by
    simp [matching, pairMatch, hrA, hbAB]
  have e2 : store_context_reference ⟨[rA], 1⟩ ty idB nB mB tB = (⟨[rA, rB], 2⟩, rB) := by
    rw [store_insert_of_absent _ ty idB nB mB tB habs2]
    rfl
  have habs3 : matching ⟨[rA, rB], 2⟩ ty idC = [] := by
    simp [matching, pairMatch, hrA, hrB, hbAC, hbBC]
  have e3 : store_context_reference ⟨[rA, rB], 2⟩ ty idC nC mC tC
      = (⟨[rA, rB, rC], 3⟩, rC) := by
    rw [store_insert_of_absent _ ty idC nC mC tC habs3]
    rfl
  have hs : upsert3 ty idA idB idC nA nB nC mA mB mC tA tB tC = ⟨[rA, rB, rC], 3⟩ := by
    simp only [upsert3, e1, e2, e3]
  have hfilter : List.filter (fun r => r.ref_type == ty) [rA, rB, rC] = [rA, rB, rC] := by
    simp [hrA, hrB, hrC]
  have hins1 : insertDesc rB [rC] = [rC, rB] := by
    have hc : ¬ (rC.last_accessed < rB.last_accessed) := by
      simp only [hrB, hrC]
      omega
    simp only [insertDesc, if_neg hc]
  have hins2 : insertDesc rA [rC, rB] = [rC, rB, rA] := by
    have hc1 : ¬ (rC.last_accessed < rA.last_accessed) := by
      simp only [hrA, hrC]
      omega
    have hc2 : ¬ (rB.last_accessed < rA.last_accessed) := by
      simp only [hrA, hrB]
      omega
    simp only [insertDesc, if_neg hc1, if_neg hc2]
  have hsort : sortDesc [rA, rB, rC] = [rC, rB, rA] := by
    simp only [sortDesc]
    rw [show insertDesc rC [] = [rC] from rfl, hins1, hins2]
  have hglr : get_last_reference ⟨[rA, rB, rC], 3⟩ ty 5 = some [rC, rB, rA] := by
    rw [get_last_reference]
    simp only [hfilter, hsort]
    rw [show List.take 5 [rC, rB, rA] = [rC, rB, rA] from rfl]
    rfl
  refine ⟨by decide, by decide, by decide, by decide, by decide, by decide, ?_, ?_, ?_⟩
  · rw [hs]
    simp only [resolve_ordinal_reference,
      show strLower "first" = "first" from by decide,
      show ordinal_map.lookup "first" = some 0 from by decide, hglr,
      show pyGet [rC, rB, rA] (0 : Int) = some rC from rfl]
  · rw [hs]
    simp only [resolve_ordinal_reference,
      show strLower "second" = "second" from by decide,
      show ordinal_map.lookup "second" = some 1 from by decide, hglr,
      show pyGet [rC, rB, rA] (1 : Int) = some rB from rfl]
  · rw [hs]
    simp only [resolve_ordinal_reference,
      show strLower "last" = "last" from by decide,
      show ordinal_map.lookup "last" = some (-1) from by decide, hglr,
      show pyGet [rC, rB, rA] (-1 : Int) = some rA from rfl]

/-- Witness for C2: the scenario instantiated with three concrete email
references at times 1 < 2 < 3. -/
theorem ordinal_resolution_correct_witness :
    ordinal_map.lookup "first" = some 0 ∧
    ordinal_map.lookup "second" = some 1 ∧
    ordinal_map.lookup "third" = some 2 ∧
    ordinal_map.lookup "fourth" = some 3 ∧
    ordinal_map.lookup "fifth" = some 4 ∧
    ordinal_map.lookup "last" = some (-1) ∧
    resolve_ordinal_reference (upsert3 "email" "a" "b" "c" "A" "B" "C" none none none 1 2 3)
        "first" "email" = some ⟨"email", "c", "C", Option.getD none []⟩ ∧
    resolve_ordinal_reference (upsert3 "email" "a" "b" "c" "A" "B" "C" none none none 1 2 3)
        "second" "email" = some ⟨"email", "b", "B", Option.getD none []⟩ ∧
    resolve_ordinal_reference (upsert3 "email" "a" "b" "c" "A" "B" "C" none none none 1 2 3)
        "last" "email" = some ⟨"email", "a", "A", Option.getD none []⟩ := by
  exact ordinal_resolution_correct "email" "a" "b" "c" "A" "B" "C" none none none 1 2 3
    (by decide) (by decide) (by decide) (by decide) (by decide)

/-! ## Characterising `get_last_reference` -/

theorem get_last_reference_eq_some {s : Store} {ty : String} {limit : Nat}
    {l : List ContextReference} (h : get_last_reference s ty limit = some l) :
    l = (sortDesc (s.refs.filter (fun r => r.ref_type == ty))).take limit ∧ l ≠ [] := by
  rw [get_last_reference] at h
  by_cases hemp : ((sortDesc (s.refs.filter (fun r => r.ref_type == ty))).take limit).isEmpty
  · rw [if_pos hemp] at h
    cases h
  · rw [if_neg hemp] at h
    have hl := (Option.some.inj h).symm
    subst hl
    refine ⟨rfl, ?_⟩
    intro hnil
    rw [hnil] at hemp
    exact hemp rfl

theorem get_last_reference_of_empty {s : Store} {ty : String} {limit : Nat}
    (h : s.refs.filter (fun r => r.ref_type == ty) = []) :
    get_last_reference s ty limit = none := by
  rw [get_last_reference, h]
  simp [sortDesc]

/-! ## C5: out-of-range ordinal yields not-found, not an error -/

/-- C5: with exactly two stored references of the given type, resolving the
in-vocabulary ordinal "fifth" (index 4) is out of range of the fetched window
and returns the explicit not-found signal `none`; the embedding is a total
function, mirroring the `try/except IndexError` that prevents any exception
from escaping. -/
theorem out_of_range_ordinal_not_found (s : Store) (ty : String)
    (h2 : (s.refs.filter (fun r => r.ref_type == ty)).length = 2) :
    resolve_ordinal_reference s "fifth" ty = none := by
  have hlen : ((sortDesc (s.refs.filter (fun r => r.ref_type == ty))).take 5).length = 2 := by
    rw [List.length_take, length_sortDesc, h2]
    omega
  have hne : (sortDesc (s.refs.filter (fun r => r.ref_type == ty))).take 5 ≠ [] := by
    intro hnil
    rw [hnil] at hlen
    simp at hlen
  have hglr : get_last_reference s ty 5
      = some ((sortDesc (s.refs.filter (fun r => r.ref_type == ty))).take 5) := by
    rw [get_last_reference, if_neg]
    simp only [List.isEmpty_eq_true]
    exact hne
  have hget : ((sortDesc (s.refs.filter (fun r => r.ref_type == ty))).take 5).get?
      ((4 : Int).toNat) = none := by
    rw [List.get?_eq_none, hlen]
    norm_num
  have hpy : pyGet ((sortDesc (s.refs.filter (fun r => r.ref_type == ty))).take 5) (4 : Int)
      = none := by
    rw [pyGet, if_pos (by norm_num)]
    exact hget
  rw [resolve_ordinal_reference, show strLower "fifth" = "fifth" from by decide]
  simp only [show ordinal_map.lookup "fifth" = some (4 : Int) from by decide, hglr, hpy]

/-- Witness for C5: "fifth" against the two-reference store resolves to
`none`. -/
theorem out_of_range_ordinal_not_found_witness :
    resolve_ordinal_reference twoEmailStore "fifth" "email" = none := by
  exact out_of_range_ordinal_not_found twoEmailStore "email" (by decide)

/-! ## C6: query with no matching references -/

/-- C6 counterexample: with no email references stored,
`get_last_reference` returns `none` — the model of the Python source's
`return references if references else None`, i.e. the caller receives
`None`, not an empty sequence as the claim states. -/
theorem query_recent_none_counterexample :
    get_last_reference emptyStore "email" 1 = none := by decide

/-- C6 (amended): `get_last_reference` with any type and limit returns
`None` — not an error and not an empty sequence — when no references of
that type exist; otherwise it returns a nonempty list of at most `limit`
references, all of the requested type, ordered by last-accessed
descending. -/
theorem query_recent_references_amended (s : Store) (ty : String) (limit : Nat) :
    (s.refs.filter (fun r => r.ref_type == ty) = [] →
      get_last_reference s ty limit = none) ∧
    (∀ l, get_last_reference s ty limit = some l →
      l ≠ [] ∧ l.length ≤ limit ∧ (∀ r ∈ l, r.ref_type = ty) ∧
      l.Pairwise (fun a b => b.last_accessed ≤ a.last_accessed)) := by
  constructor
  · exact get_last_reference_of_empty
  · intro l hl
    obtain ⟨hval, hnil⟩ := get_last_reference_eq_some hl
    subst hval
    refine ⟨hnil, List.length_take_le _ _, ?_, ?_⟩
    · intro r hr
      have h1 : r ∈ sortDesc (s.refs.filter (fun r => r.ref_type == ty)) :=
        (List.take_sublist _ _).subset hr
      have h2 : r ∈ s.refs.filter (fun r => r.ref_type == ty) := mem_sortDesc.mp h1
      have h3 := (List.mem_filter.mp h2).2
      exact eq_of_beq h3
    · exact List.Pairwise.sublist (List.take_sublist _ _) (pairwise_sortDesc _)

/-- Witness for C6: the single-reference park store at limit 1. -/
theorem query_recent_references_amended_witness :
    ([(⟨0, "location", "cp1", "Central Park", 1, 1, []⟩ : ContextReference)] ≠ []) ∧
    ([(⟨0, "location", "cp1", "Central Park", 1, 1, []⟩ : ContextReference)]).length ≤ 1 ∧
    (∀ r ∈ [(⟨0, "location", "cp1", "Central Park", 1, 1, []⟩ : ContextReference)],
      r.ref_type = "location") ∧
    List.Pairwise (fun a b => b.last_accessed ≤ a.last_accessed)
      [(⟨0, "location", "cp1", "Central Park", 1, 1, []⟩ : ContextReference)] := by
  exact (query_recent_references_amended parkStore "location" 1).2
    [⟨0, "location", "cp1", "Central Park", 1, 1, []⟩] (by decide)

/-! ## C7: eviction of stale references -/

/-- C7 counterexample: sweeping `staleStore` at time 10 with a 3-unit horizon
deletes exactly one row, yet the operation's return value is `None` (the
Python function body has no `return`), not the deleted-row count 1 the claim
requires. -/
theorem evict_stale_return_counterexample :
    (clear_old_references staleStore 10 3).1.refs.length + 1 = staleStore.refs.length ∧
    (clear_old_references staleStore 10 3).2 = none ∧
    (clear_old_references staleStore 10 3).2 ≠ some 1 := by decide

/-- C7 (amended): `clear_old_references` deletes exactly those references
whose last-accessed time is older than the cutoff `now - days`; the deleted
references are excluded from all subsequent queries (every reference a later
`get_last_reference` returns has a last-accessed time at or after the
cutoff); but the operation returns `None`, not the count of deleted rows. -/
theorem evict_stale_amended (s : Store) (now days : Nat) :
    (∀ r, r ∈ (clear_old_references s now days).1.refs ↔
      r ∈ s.refs ∧ ¬ r.last_accessed < now - days) ∧
    (∀ ty lim l, get_last_reference (clear_old_references s now days).1 ty lim = some l →
      ∀ r ∈ l, now - days ≤ r.last_accessed) ∧
    (clear_old_references s now days).2 = none := by
  refine ⟨?_, ?_, rfl⟩
  · intro r
    simp [clear_old_references, List.mem_filter]
  · intro ty lim l hl r hr
    obtain ⟨hval, -⟩ := get_last_reference_eq_some hl
    subst hval
    have h1 : r ∈ sortDesc ((clear_old_references s now days).1.refs.filter
        (fun r => r.ref_type == ty)) := (List.take_sublist _ _).subset hr
    have h2 := (List.mem_filter.mp (mem_sortDesc.mp h1)).1
    have h3 : ¬ r.last_accessed < now - days := by
      have := List.mem_filter.mp h2
      simpa [clear_old_references] using this.2
    omega

/-- Witness for C7: applying the sweep to `staleStore` at time 10 with
horizon 3, the survivor returned by a subsequent query is no older than the
cutoff, and the operation returned `None`. -/
theorem evict_stale_amended_witness :
    (∀ r ∈ [(⟨1, "email", "m2", "New", 9, 1, []⟩ : ContextReference)],
      10 - 3 ≤ r.last_accessed) ∧
    (clear_old_references staleStore 10 3).2 = none := by
  constructor
  · exact (evict_stale_amended staleStore 10 3).2.1 "email" 5
      [⟨1, "email", "m2", "New", 9, 1, []⟩] (by decide)
  · exact (evict_stale_amended staleStore 10 3).2.2

/-! ## Association-list dictionary lemmas for `pySet` -/

theorem lookup_append_single_ne (k k2 : String) (v : Val) (h : k2 ≠ k) (d : PDict) :
    (d ++ [(k, v)]).lookup k2 = d.lookup k2 := by
  have hb : (k2 == k) = false := beq_eq_false_iff_ne.mpr h
  rw [List.lookup_append]
  have h2 : ([(k, v)] : PDict).lookup k2 = none := by
    simp [List.lookup_cons, hb]
  rw [h2]
  cases d.lookup k2 <;> rfl

theorem lookup_map_replace_self (k : String) (v : Val) :
    ∀ d : PDict, hasKey d k = true →
      (d.map (fun p => if p.1 == k then (k, v) else p)).lookup k = some v := by
  intro d
  induction d with
  | nil => intro h; simp [hasKey] at h
  | cons x xs ih =>
      obtain ⟨xk, xv⟩ := x
      intro h
      by_cases hk : xk = k
      · simp [hk, List.lookup_cons]
      · have hk2 : (xk == k) = false := beq_eq_false_iff_ne.mpr hk
        have hk3 : (k == xk) = false := beq_eq_false_iff_ne.mpr (fun he => hk he.symm)
        have hxs : hasKey xs k = true := by
          rw [hasKey, List.any_cons] at h
          rw [hasKey]
          simpa [hk2] using h
        simp only [List.map_cons, hk2, Bool.false_eq_true, if_false, List.lookup_cons, hk3]
        exact ih hxs

theorem lookup_map_replace_ne (k k2 : String) (v : Val) (h : k2 ≠ k) :
    ∀ d : PDict, (d.map (fun p => if p.1 == k then (k, v) else p)).lookup k2
      = d.lookup k2 := by
  intro d
  induction d with
  | nil => rfl
  | cons x xs ih =>
      obtain ⟨xk, xv⟩ := x
      by_cases hk : xk = k
      · have hbk : (k2 == k) = false := beq_eq_false_iff_ne.mpr h
        simp only [List.map_cons, hk, beq_self_eq_true, if_true, List.lookup_cons, hbk]
        rw [ih]
      · have hk2 : (xk == k) = false := beq_eq_false_iff_ne.mpr hk
        simp only [List.map_cons, hk2, Bool.false_eq_true, if_false, List.lookup_cons]
        cases hb : (k2 == xk)
        · simp only [hb, Bool.false_eq_true, if_false]
          exact ih
        · simp only [hb, if_true]

theorem lookup_pySet_self (d : PDict) (k : String) (v : Val) :
    (pySet d k v).lookup k = some v := by
  rw [pySet]
  by_cases h : hasKey d k
  · rw [if_pos h]
    exact lookup_map_replace_self k v d h
  · rw [if_neg h]
    rw [List.lookup_append]
    have hnone : d.lookup k = none := by
      rw [List.lookup_eq_none_iff]
      intro p hp
      rw [hasKey] at h
      have hall : ¬ ∃ x ∈ d, (x.1 == k) = true := by
        intro hex
        exact h (List.any_eq_true.mpr hex)
      have hpk : ¬ (p.1 == k) = true := fun hc => hall ⟨p, hp, hc⟩
      have hne : p.1 ≠ k := fun he => hpk (by simp [he])
      exact bne_iff_ne.mpr (fun he => hne he.symm)
    rw [hnone]
    simp [List.lookup_cons]

theorem lookup_pySet_ne (d : PDict) (k k2 : String) (v : Val) (h : k2 ≠ k) :
    (pySet d k v).lookup k2 = d.lookup k2 := by
  rw [pySet]
  by_cases hk : hasKey d k
  · rw [if_pos hk]
    exact lookup_map_replace_ne k k2 v h d
  · rw [if_neg hk]
    exact lookup_append_single_ne k k2 v h d

/-! ## C4: extracted parameters take precedence -/

/-- C4 counterexample: when `extracted_params` itself contains the key
"needs_clarification", `resolve_entities` overwrites it — here the original
value `True` comes back as `False` even though "play some jazz" has no
reference cues — so not every key of `extracted_params` keeps its original
value. -/
theorem extracted_params_precedence_counterexample :
    List.lookup "needs_clarification"
        (resolve_entities emptyStore "play some jazz" "spotify_play"
          [("needs_clarification", Val.bool true)])
      = some (Val.bool false) ∧
    List.lookup "needs_clarification"
        ([("needs_clarification", Val.bool true)] : PDict)
      = some (Val.bool true) ∧
    (some (Val.bool false) : Option Val) ≠ some (Val.bool true) := by
  refine ⟨by decide, by decide, by decide⟩

/-- C4 (amended): every key of `extracted_params` other than the two keys the
resolver itself writes — "needs_clarification" and "resolved_reference" —
maps in the result of `resolve_entities` to its original value; and when the
input text contains no reference cues the result is exactly
`extracted_params` with "needs_clarification" set to `False`. -/
theorem extracted_params_precedence_amended (s : Store) (user_input intent2 : String)
    (params : PDict) :
    (∀ k, k ≠ "needs_clarification" → k ≠ "resolved_reference" →
      (resolve_entities s user_input intent2 params).lookup k = params.lookup k) ∧
    ((extract_context_from_input user_input).has_reference = false →
      ∀ k, (resolve_entities s user_input intent2 params).lookup k
        = if k = "needs_clarification" then some (Val.bool false)
          else params.lookup k) := by
  constructor
  · intro k h1 h2
    simp only [resolve_entities]
    rw [lookup_pySet_ne _ _ _ _ h1]
    by_cases hr : (extract_context_from_input user_input).has_reference
    · rw [if_pos hr]
      split
      · split
        · exact lookup_pySet_ne _ _ _ _ h2
        · rfl
      · split
        · exact lookup_pySet_ne _ _ _ _ h2
        · rfl
    · rw [if_neg hr]
  · intro hnoref k
    simp only [resolve_entities, hnoref, Bool.false_eq_true, if_false, Bool.false_and]
    by_cases hk : k = "needs_clarification"
    · subst hk
      rw [lookup_pySet_self, if_pos rfl]
    · rw [lookup_pySet_ne _ _ _ _ hk, if_neg hk]

/-- Witness for C4: "play some jazz" with one pre-extracted parameter passes
the parameter through untouched and reports no clarification needed. -/
theorem extracted_params_precedence_amended_witness :
    List.lookup "query"
        (resolve_entities emptyStore "play some jazz" "spotify_play"
          [("query", Val.str "jazz")])
      = List.lookup "query" ([("query", Val.str "jazz")] : PDict) ∧
    List.lookup "needs_clarification"
        (resolve_entities emptyStore "play some jazz" "spotify_play"
          [("query", Val.str "jazz")])
      = some (Val.bool false) := by
  constructor
  · exact (extracted_params_precedence_amended emptyStore "play some jazz" "spotify_play"
      [("query", Val.str "jazz")]).1 "query" (by decide) (by decide)
  · have h := (extracted_params_precedence_amended emptyStore "play some jazz" "spotify_play"
      [("query", Val.str "jazz")]).2 (by decide) "needs_clarification"
    simpa using h

/-! ## C3: demonstrative-case resolution order -/

/-- C3 counterexample: the utterance "visit" contains no music keyword and
no bare pronoun "it" — only the substring "it" inside "visit" — so by the
claim no type matches, resolution should fail, and `needs_clarification`
should be `True`; but the code's substring test fires on "it", attaches the
stored track, and reports `needs_clarification = False`. -/
theorem demonstrative_first_match_counterexample :
    containsSub (strLower "visit") "it" = true ∧
    trackCue "visit" = true ∧
    List.lookup "needs_clarification"
        (resolve_entities trackStore "visit" "spotify_play" [])
      = some (Val.bool false) ∧
    List.lookup "resolved_reference"
        (resolve_entities trackStore "visit" "spotify_play" [])
      = some (Val.ref ⟨"track", "t1", "Song X", []⟩) := by
  refine ⟨by decide, by decide, by decide, by decide⟩

/-- C3 (amended): in the demonstrative case resolution checks types in the
fixed order email (email/message substring), then location (there / that
place / location substring), then track (song/track/music substring, or the
substring "it"); the first matching type THAT HAS A STORED REFERENCE wins
(a keyword match whose type has no stored reference falls through to the
next type); if no type matches at all, resolution returns none, and the
orchestrator then reports `needs_clarification = True`; and with one stored
location "Central Park", "take me there" resolves to Central Park with
`needs_clarification = False`. -/
theorem demonstrative_resolution_amended (s : Store) (text : String) :
    (emailCue text = true → (lastRefResolved s "email").isSome = true →
      resolve_entity_reference s text = lastRefResolved s "email") ∧
    ((emailCue text = false ∨ lastRefResolved s "email" = none) →
      locationCue text = true → (lastRefResolved s "location").isSome = true →
      resolve_entity_reference s text = lastRefResolved s "location") ∧
    ((emailCue text = false ∨ lastRefResolved s "email" = none) →
      (locationCue text = false ∨ lastRefResolved s "location" = none) →
      trackCue text = true → (lastRefResolved s "track").isSome = true →
      resolve_entity_reference s text = lastRefResolved s "track") ∧
    (emailCue text = false → locationCue text = false → trackCue text = false →
      resolve_entity_reference s text = none) ∧
    (∀ intent2 params, (extract_context_from_input text).has_reference = true →
      (extract_context_from_input text).ordinal = none →
      resolve_entity_reference s text = none →
      hasKey params "resolved_reference" = false →
      (resolve_entities s text intent2 params).lookup "needs_clarification"
        = some (Val.bool true)) ∧
    resolve_entities parkStore "take me there" "maps_directions" []
      = [("resolved_reference", Val.ref ⟨"location", "cp1", "Central Park", []⟩),
         ("needs_clarification", Val.bool false)] := by
  refine ⟨?_, ?_, ?_, ?_, ?_, by decide⟩
  · intro h1 h2
    obtain ⟨r, hr⟩ := Option.isSome_iff_exists.mp h2
    simp [resolve_entity_reference, h1, hr, Option.orElse]
  · intro hfail h1 h2
    obtain ⟨r, hr⟩ := Option.isSome_iff_exists.mp h2
    have hr1 : (if emailCue text = true then lastRefResolved s "email" else none) = none := by
      rcases hfail with hf | hf
      · simp [hf]
      · simp [hf]
    simp [resolve_entity_reference, hr1, h1, hr, Option.orElse]
  · intro hfail1 hfail2 h1 h2
    obtain ⟨r, hr⟩ := Option.isSome_iff_exists.mp h2
    have hr1 : (if emailCue text = true then lastRefResolved s "email" else none) = none := by
      rcases hfail1 with hf | hf
      · simp [hf]
      · simp [hf]
    have hr2 : (if locationCue text = true then lastRefResolved s "location" else none)
        = none := by
      rcases hfail2 with hf | hf
      · simp [hf]
      · simp [hf]
    simp [resolve_entity_reference, hr1, hr2, h1, hr, Option.orElse]
  · intro h1 h2 h3
    simp [resolve_entity_reference, h1, h2, h3, Option.orElse]
  · intro intent2 params hhr hord hres hkey
    simp only [resolve_entities, hhr, hord, hres, if_true, hkey]
    simp [lookup_pySet_self]

/-- Witness for C3: "reply to that email" against a store with email
references resolves to the most recent email reference. -/
theorem demonstrative_resolution_amended_witness :
    resolve_entity_reference twoEmailStore "reply to that email"
      = lastRefResolved twoEmailStore "email" := by
  exact (demonstrative_resolution_amended twoEmailStore "reply to that email").1
    (by decide) (by decide)

/-! ## C9: clarification generation -/

theorem get_recent_items_summary_eq (s : Store) (ty : String) (n : Nat) :
    get_recent_items_summary s ty n
      = ((sortDesc (s.refs.filter (fun r => r.ref_type == ty))).take n).map
          (fun r => r.ref_name) := by
  rw [get_recent_items_summary]
  by_cases hemp : ((sortDesc (s.refs.filter (fun r => r.ref_type == ty))).take n).isEmpty
  · have hnil : (sortDesc (s.refs.filter (fun r => r.ref_type == ty))).take n = [] :=
      List.isEmpty_eq_true.mp hemp
    rw [get_last_reference, if_pos hemp, hnil]
    rfl
  · rw [get_last_reference, if_neg hemp]

/-- C9: `generate_clarification_options` fetches up to 3 most-recent display
names of the given type as the options list (here in last-accessed-descending
order from the store), returns the fixed per-type template question (email,
location, track, with the general question as fallback for every other
type); when zero candidates of the type exist the options list is empty but
the question is still the per-type template; and the email question is
distinct from the generic fallback question. -/
theorem clarification_generation_correct (s s2 : Store) (ty ty2 : String)
    (hno : s.refs.filter (fun r => r.ref_type == ty) = []) :
    (generate_clarification_options s ty).options = [] ∧
    (generate_clarification_options s ty).question = build_clarification_question ty ∧
    (generate_clarification_options s2 ty2).options
      = ((sortDesc (s2.refs.filter (fun r => r.ref_type == ty2))).take 3).map
          (fun r => r.ref_name) ∧
    (generate_clarification_options s2 ty2).options.length ≤ 3 ∧
    (generate_clarification_options s2 "email").question
      = "Which email? Could you be more specific?" ∧
    (generate_clarification_options s2 "location").question
      = "Which location do you mean?" ∧
    (generate_clarification_options s2 "track").question
      = "Which song are you referring to?" ∧
    (ty2 ≠ "email" → ty2 ≠ "location" → ty2 ≠ "track" →
      (generate_clarification_options s2 ty2).question
        = "Could you please clarify what you mean?") ∧
    "Which email? Could you be more specific?"
      ≠ "Could you please clarify what you mean?" := by
  refine ⟨?_, rfl, ?_, ?_, rfl, rfl, rfl, ?_, by decide⟩
  · show get_recent_items_summary s ty 3 = []
    rw [get_recent_items_summary_eq, hno]
    rfl
  · exact get_recent_items_summary_eq s2 ty2 3
  · show (get_recent_items_summary s2 ty2 3).length ≤ 3
    rw [get_recent_items_summary_eq, List.length_map]
    exact List.length_take_le _ _
  · intro h1 h2 h3
    show build_clarification_question ty2 = _
    have hb1 : (ty2 == "email") = false := beq_eq_false_iff_ne.mpr h1
    have hb2 : (ty2 == "location") = false := beq_eq_false_iff_ne.mpr h2
    have hb3 : (ty2 == "track") = false := beq_eq_false_iff_ne.mpr h3
    rw [build_clarification_question]
    by_cases h4 : ty2 = "general"
    · simp [List.lookup_cons, hb1, hb2, hb3, h4]
    · have hb4 : (ty2 == "general") = false := beq_eq_false_iff_ne.mpr h4
      simp [List.lookup_cons, hb1, hb2, hb3, hb4]

/-- Witness for C9: the empty store for "email" (zero candidates), alongside
the park store at an out-of-vocabulary type. -/
theorem clarification_generation_correct_witness :
    (generate_clarification_options emptyStore "email").options = [] ∧
    (generate_clarification_options emptyStore "email").question
      = build_clarification_question "email" ∧
    (generate_clarification_options parkStore "zzz").options
      = ((sortDesc (parkStore.refs.filter (fun r => r.ref_type == "zzz"))).take 3).map
          (fun r => r.ref_name) ∧
    (generate_clarification_options parkStore "zzz").options.length ≤ 3 ∧
    (generate_clarification_options parkStore "email").question
      = "Which email? Could you be more specific?" ∧
    (generate_clarification_options parkStore "location").question
      = "Which location do you mean?" ∧
    (generate_clarification_options parkStore "track").question
      = "Which song are you referring to?" ∧
    ("zzz" ≠ "email" → "zzz" ≠ "location" → "zzz" ≠ "track" →
      (generate_clarification_options parkStore "zzz").question
        = "Could you please clarify what you mean?") ∧
    "Which email? Could you be more specific?"
      ≠ "Could you please clarify what you mean?" := by
  exact clarification_generation_correct emptyStore parkStore "email" "zzz" (by decide)

/-! ## C10: substring-based cue detection -/

/-- C10 counterexample: "workplace" contains the type keyword "place" as a
substring of a longer word, and `extract_context_from_input` does set the
corresponding `reference_type`, but it does NOT set `has_reference` — type
keywords alone never set `has_reference`, contradicting the claim. -/
theorem substring_cue_counterexample :
    containsSub (strLower "workplace") "place" = true ∧
    (extract_context_from_input "workplace").reference_type = some "location" ∧
    (extract_context_from_input "workplace").has_reference = false := by
  refine ⟨by decide, by decide, by decide⟩

/-- C10 (amended): cue detection is substring containment, not word-boundary
matching: any input containing a demonstrative word as a substring (e.g.
"guitar" contains "it") gets `has_reference = true`; any input containing an
ordinal word as a substring (e.g. "firstly" contains "first") gets
`has_reference = true` and an ordinal recorded; any input containing an
email-family keyword as a substring gets `reference_type = "email"`; but a
type-keyword substring alone (e.g. "place" inside "workplace") sets only
`reference_type`, never `has_reference`. -/
theorem substring_cue_amended :
    (∀ t d, d ∈ demonstratives → containsSub (strLower t) d = true →
      (extract_context_from_input t).has_reference = true) ∧
    (∀ t o, o ∈ ordinals → containsSub (strLower t) o = true →
      (extract_context_from_input t).has_reference = true ∧
      (extract_context_from_input t).ordinal.isSome = true) ∧
    (∀ t, (containsSub (strLower t) "email" = true ∨
        containsSub (strLower t) "message" = true) →
      (extract_context_from_input t).reference_type = some "email") ∧
    (extract_context_from_input "guitar").has_reference = true ∧
    (extract_context_from_input "guitar").reference_type = none ∧
    (extract_context_from_input "firstly").ordinal = some "first" ∧
    (extract_context_from_input "firstly").has_reference = true ∧
    (extract_context_from_input "workplace").reference_type = some "location" ∧
    (extract_context_from_input "workplace").has_reference = false := by
  refine ⟨?_, ?_, ?_, by decide, by decide, by decide, by decide, by decide, by decide⟩
  · intro t d hd hsub
    have hany : demonstratives.any (fun w => containsSub (strLower t) w) = true :=
      List.any_eq_true.mpr ⟨d, hd, hsub⟩
    simp [extract_context_from_input, hany]
  · intro t o ho hsub
    have hfind : (ordinals.find? (fun w => containsSub (strLower t) w)).isSome = true :=
      List.find?_isSome.mpr ⟨o, ho, hsub⟩
    constructor
    · simp [extract_context_from_input, hfind]
    · simpa [extract_context_from_input] using hfind
  · intro t hcue
    have hor : (containsSub (strLower t) "email" || containsSub (strLower t) "message")
        = true := by
      rcases hcue with h | h
      · simp [h]
      · simp [h]
    simp [extract_context_from_input, hor]

/-- Witness for C10: the demonstrative-substring clause applied to "guitar"
(which contains "it"), and the email-keyword clause applied to
"my messages". -/
theorem substring_cue_amended_witness :
    (extract_context_from_input "guitar").has_reference = true ∧
    (extract_context_from_input "my messages").reference_type = some "email" := by
  constructor
  · exact substring_cue_amended.1 "guitar" "it" (by decide) (by decide)
  · exact substring_cue_amended.2.2.1 "my messages" (Or.inr (by decide))

end Nexus
